import Mathlib

/-!
Verification of the generation-orchestration and audio layer of the Aira
chat client (`src/services/geminiService.ts`), shallowly embedded in Lean.
Bytes are `Nat` values below 256, strings are Lean `String`s, machine
integer truncation is written with explicit `% 2 ^ w`, and the Int16
sample codec is modelled over `ℚ`.
-/

namespace Aira

/-- Little-endian encoding of a 16-bit field (`DataView.setUint16 _ _ true`). -/
def u16le (n : Nat) : List Nat :=
  [n % 256, n / 256 % 256]

/-- Little-endian encoding of a 32-bit field (`DataView.setUint32 _ _ true`). -/
def u32le (n : Nat) : List Nat :=
  [n % 256, n / 256 % 256, n / 2 ^ 16 % 256, n / 2 ^ 24 % 256]

/-- `writeString`: the ASCII bytes of a tag string written into the header. -/
def asciiBytes (s : String) : List Nat :=
  s.data.map Char.toNat

/-- The 44-byte `wavHeader` buffer filled by `base64PCMToWav`
(src/services/geminiService.ts:180-198), as a function of the payload byte
length and the sample rate.  JS `setUint32`/`setUint16` store their argument
modulo the field width, written here explicitly. -/
def wavHeader (payloadLen sampleRate : Nat) : List Nat :=
  let numChannels : Nat := 1
  let byteRate : Nat := sampleRate * numChannels * 2
  let blockAlign : Nat := numChannels * 2
  asciiBytes "RIFF"
    ++ u32le ((36 + payloadLen) % 2 ^ 32)
    ++ asciiBytes "WAVE"
    ++ asciiBytes "fmt "
    ++ u32le (16 % 2 ^ 32)
    ++ u16le (1 % 2 ^ 16)
    ++ u16le (numChannels % 2 ^ 16)
    ++ u32le (sampleRate % 2 ^ 32)
    ++ u32le (byteRate % 2 ^ 32)
    ++ u16le (blockAlign % 2 ^ 16)
    ++ u16le (16 % 2 ^ 16)
    ++ asciiBytes "data"
    ++ u32le (payloadLen % 2 ^ 32)

/-- `base64PCMToWav` (src/services/geminiService.ts:168-202), after base64
decoding: from the decoded PCM byte payload and a sample rate, the byte
layout of the produced WAV blob — `new Blob([view, pcmData])`, i.e. the
header bytes immediately followed by the raw sample bytes. -/
def base64PCMToWav (pcm : List Nat) (sampleRate : Nat) : List Nat :=
  wavHeader pcm.length sampleRate ++ pcm

lemma asciiBytes_RIFF : asciiBytes "RIFF" = [82, 73, 70, 70] := rfl

lemma asciiBytes_WAVE : asciiBytes "WAVE" = [87, 65, 86, 69] := rfl

lemma asciiBytes_fmt : asciiBytes "fmt " = [102, 109, 116, 32] := rfl

lemma asciiBytes_data : asciiBytes "data" = [100, 97, 116, 97] := rfl

lemma wavHeader_length (payloadLen sampleRate : Nat) :
    (wavHeader payloadLen sampleRate).length = 44 := by
  simp [wavHeader, asciiBytes_RIFF, asciiBytes_WAVE, asciiBytes_fmt,
    asciiBytes_data, u16le, u32le]

/-- C1: for every decoded PCM payload of even byte length (with in-range
fields, as stored in 16/32-bit little-endian slots) the conversion yields
exactly the 44-byte RIFF/WAVE header — RIFF chunk size `36 + len`, format
tag 1, 1 channel, the given sample rate, byte rate `sampleRate * 2`, block
align 2, 16 bits per sample, data sub-chunk size `len` — followed by the
original sample bytes unchanged. -/
theorem base64PCMToWav_layout (pcm : List Nat) (sampleRate : Nat)
    (heven : pcm.length % 2 = 0)
    (hlen : 36 + pcm.length < 2 ^ 32)
    (hsr : sampleRate * 2 < 2 ^ 32) :
    base64PCMToWav pcm sampleRate =
      (asciiBytes "RIFF" ++ u32le (36 + pcm.length) ++ asciiBytes "WAVE"
        ++ asciiBytes "fmt " ++ u32le 16 ++ u16le 1 ++ u16le 1
        ++ u32le sampleRate ++ u32le (sampleRate * 2) ++ u16le 2 ++ u16le 16
        ++ asciiBytes "data" ++ u32le pcm.length) ++ pcm
    ∧ (base64PCMToWav pcm sampleRate).length = 44 + pcm.length
    ∧ (base64PCMToWav pcm sampleRate).drop 44 = pcm := by
  have h1 : sampleRate < 2 ^ 32 := by omega
  have h2 : pcm.length < 2 ^ 32 := by omega
  have hhd : wavHeader pcm.length sampleRate =
      asciiBytes "RIFF" ++ u32le (36 + pcm.length) ++ asciiBytes "WAVE"
        ++ asciiBytes "fmt " ++ u32le 16 ++ u16le 1 ++ u16le 1
        ++ u32le sampleRate ++ u32le (sampleRate * 2) ++ u16le 2 ++ u16le 16
        ++ asciiBytes "data" ++ u32le pcm.length := by
    simp only [wavHeader, Nat.mul_one, Nat.mod_eq_of_lt hlen,
      Nat.mod_eq_of_lt hsr, Nat.mod_eq_of_lt h1, Nat.mod_eq_of_lt h2]
    norm_num
  refine ⟨by rw [base64PCMToWav, hhd], ?_, ?_⟩
  · rw [base64PCMToWav, List.length_append, wavHeader_length]
  · rw [base64PCMToWav]
    have := List.drop_left (wavHeader pcm.length sampleRate) pcm
    rwa [wavHeader_length] at this

/-- Witness for C1 at a concrete payload and sample rate. -/
theorem base64PCMToWav_layout_witness :
    (base64PCMToWav [1, 2, 3, 4] 24000).drop 44 = [1, 2, 3, 4] :=
  (base64PCMToWav_layout [1, 2, 3, 4] 24000 (by decide) (by decide)
    (by decide)).2.2

/-- Truncation toward zero of a rational, the rounding step of JS
number-to-integer conversion. -/
def truncQ (q : ℚ) : ℤ :=
  if 0 ≤ q then ⌊q⌋ else ⌈q⌉

/-- Reduction of an integer into the signed 16-bit range, the wrapping step
of assigning a JS number into an `Int16Array` slot. -/
def wrap16 (i : ℤ) : ℤ :=
  if i % 2 ^ 16 < 2 ^ 15 then i % 2 ^ 16 else i % 2 ^ 16 - 2 ^ 16

/-- `pcm16[i] = inputData[i] * 0x7FFF` (src/services/geminiService.ts:273):
scale a normalized float sample by 32767 and store it into an Int16 slot
(truncate toward zero, then wrap to 16 bits). -/
def encodeSample (x : ℚ) : ℤ :=
  wrap16 (truncQ (x * 32767))

/-- `channelData[i] = int16[i] / 32768.0` (src/services/geminiService.ts:314):
convert an Int16 sample back to a normalized float. -/
def decodeSample (i : ℤ) : ℚ :=
  (i : ℚ) / 32768

lemma wrap16_eq_of_bounds (i : ℤ) (h1 : -(2 ^ 15) ≤ i) (h2 : i < 2 ^ 15) :
    wrap16 i = i := by
  unfold wrap16
  split <;> omega

lemma truncQ_le_self_of_nonneg (q : ℚ) (h : 0 ≤ q) : (truncQ q : ℚ) ≤ q := by
  rw [truncQ, if_pos h]
  exact Int.floor_le q

lemma self_le_truncQ_of_neg (q : ℚ) (h : q < 0) : q ≤ (truncQ q : ℚ) := by
  rw [truncQ, if_neg (not_le.mpr h)]
  exact Int.le_ceil q

lemma truncQ_mono (x y : ℚ) (h : x ≤ y) : truncQ x ≤ truncQ y := by
  unfold truncQ
  by_cases hx : 0 ≤ x
  · rw [if_pos hx, if_pos (le_trans hx h)]
    exact Int.floor_le_floor h
  · rw [if_neg hx]
    by_cases hy : 0 ≤ y
    · rw [if_pos hy]
      have h1 : (⌈x⌉ : ℤ) ≤ 0 := Int.ceil_le.mpr (by exact_mod_cast le_of_lt (not_le.mp hx))
      have h2 : (0 : ℤ) ≤ ⌊y⌋ := Int.floor_nonneg.mpr hy
      omega
    · rw [if_neg hy]
      exact Int.ceil_le_ceil h

lemma truncQ_bounds (x : ℚ) (hlo : -1 ≤ x) (hhi : x ≤ 1) :
    -32767 ≤ truncQ (x * 32767) ∧ truncQ (x * 32767) ≤ 32767 := by
  have hql : (-32767 : ℚ) ≤ x * 32767 := by linarith
  have hqh : x * 32767 ≤ (32767 : ℚ) := by linarith
  constructor
  · by_cases h : 0 ≤ x * 32767
    · have : (0 : ℤ) ≤ truncQ (x * 32767) := by
        rw [truncQ, if_pos h]
        exact Int.floor_nonneg.mpr h
      omega
    · have := self_le_truncQ_of_neg (x * 32767) (not_le.mp h)
      have : (-32767 : ℚ) ≤ (truncQ (x * 32767) : ℚ) := le_trans hql this
      exact_mod_cast this
  · by_cases h : 0 ≤ x * 32767
    · have := truncQ_le_self_of_nonneg (x * 32767) h
      have : (truncQ (x * 32767) : ℚ) ≤ 32767 := le_trans this hqh
      exact_mod_cast this
    · have : truncQ (x * 32767) ≤ 0 := by
        rw [truncQ, if_neg h]
        exact Int.ceil_le.mpr (by exact_mod_cast le_of_lt (not_le.mp h))
      omega

/-- On [-1, 1] the Int16 store never wraps: the encoded sample is exactly
the truncation of `x * 32767`, and it lies in [-32767, 32767]. -/
lemma encodeSample_no_wrap (x : ℚ) (hlo : -1 ≤ x) (hhi : x ≤ 1) :
    encodeSample x = truncQ (x * 32767)
      ∧ -32767 ≤ encodeSample x ∧ encodeSample x ≤ 32767 := by
  obtain ⟨h1, h2⟩ := truncQ_bounds x hlo hhi
  have he : encodeSample x = truncQ (x * 32767) := by
    rw [encodeSample]
    exact wrap16_eq_of_bounds _ (by omega) (by omega)
  exact ⟨he, by omega, by omega⟩

/-- C4 (counterexample): at x = 65533/65534 ∈ [-1, 1] the encode-truncate
/ decode-divide round trip errs by 49150/1073709056 ≈ 1.5/32768, exceeding
the claimed 1/32768 absolute-error bound. -/
theorem sample_roundtrip_bound_counterexample :
    -1 ≤ (65533 : ℚ) / 65534 ∧ (65533 : ℚ) / 65534 ≤ 1 ∧
      ¬ |(65533 : ℚ) / 65534 -
          decodeSample (encodeSample ((65533 : ℚ) / 65534))| ≤ 1 / 32768 := by
  have hq : (65533 : ℚ) / 65534 * 32767 = 65533 / 2 := by norm_num
  have hfl : ⌊(65533 : ℚ) / 2⌋ = 32766 :=
    Int.floor_eq_iff.mpr ⟨by norm_num, by norm_num⟩
  have henc : encodeSample ((65533 : ℚ) / 65534) = 32766 := by
    rw [encodeSample, hq, truncQ, if_pos (by norm_num), hfl]
    exact wrap16_eq_of_bounds 32766 (by norm_num) (by norm_num)
  refine ⟨by norm_num, by norm_num, ?_⟩
  rw [henc, decodeSample]
  intro hcontra
  rw [abs_le] at hcontra
  have h2 := hcontra.2
  norm_num at h2

/-- C4 (amended): for x ∈ [-1, 1] the Int16 store neither overflows nor
wraps (the encoded value is the plain truncation of x·32767, within
[-32767, 32767]), the round-trip error is strictly below 2/32768 (not
1/32768 as claimed), and the composed encode-then-decode map is
monotonic. -/
theorem sample_codec_amended :
    (∀ x : ℚ, -1 ≤ x → x ≤ 1 →
      encodeSample x = truncQ (x * 32767)
        ∧ -32767 ≤ encodeSample x ∧ encodeSample x ≤ 32767
        ∧ |x - decodeSample (encodeSample x)| < 2 / 32768)
    ∧ (∀ x y : ℚ, -1 ≤ x → x ≤ y → y ≤ 1 →
        decodeSample (encodeSample x) ≤ decodeSample (encodeSample y)) := by
  constructor
  · intro x hlo hhi
    obtain ⟨he, h1, h2⟩ := encodeSample_no_wrap x hlo hhi
    refine ⟨he, h1, h2, ?_⟩
    rw [he, decodeSample]
    by_cases hx : 0 ≤ x * 32767
    · have hA := truncQ_le_self_of_nonneg (x * 32767) hx
      have hB : x * 32767 - 1 < (truncQ (x * 32767) : ℚ) := by
        rw [truncQ, if_pos hx]
        exact_mod_cast Int.sub_one_lt_floor (x * 32767)
      have h0 : 0 ≤ x := by linarith
      rw [abs_of_nonneg (by linarith)]
      linarith
    · have hxneg := not_le.mp hx
      have hA := self_le_truncQ_of_neg (x * 32767) hxneg
      have hB : (truncQ (x * 32767) : ℚ) < x * 32767 + 1 := by
        rw [truncQ, if_neg hx]
        exact_mod_cast Int.ceil_lt_add_one (x * 32767)
      have h0 : x ≤ 0 := by linarith
      rw [abs_of_nonpos (by linarith)]
      linarith
  · intro x y hx hxy hy
    have hex := (encodeSample_no_wrap x hx (le_trans hxy hy)).1
    have hey := (encodeSample_no_wrap y (le_trans hx hxy) hy).1
    rw [hex, hey, decodeSample, decodeSample]
    have hm : (truncQ (x * 32767) : ℚ) ≤ (truncQ (y * 32767) : ℚ) := by
      exact_mod_cast truncQ_mono (x * 32767) (y * 32767) (by linarith)
    linarith

/-- Witness for the amended C4 theorem at x = 1/2 and at the monotone pair
(0, 1). -/
theorem sample_codec_amended_witness :
    |(1 : ℚ) / 2 - decodeSample (encodeSample (1 / 2))| < 2 / 32768
      ∧ decodeSample (encodeSample 0) ≤ decodeSample (encodeSample 1) :=
  ⟨(sample_codec_amended.1 (1 / 2) (by norm_num) (by norm_num)).2.2.2,
    sample_codec_amended.2 0 1 (by norm_num) (by norm_num) (by norm_num)⟩

/-- `Attachment` (src/types.ts:1-5). -/
structure Attachment where
  mimeType : String
  data : String
  name : Option String
deriving DecidableEq

/-- `AppMode` (src/types.ts:7). -/
inductive AppMode
  | chat
  | thinking
  | maps
  | image
  | video
  | fast
  | tts
  | live
deriving DecidableEq

/-- Message role (src/types.ts:17). -/
inductive Role
  | user
  | model
deriving DecidableEq

/-- `Message` (src/types.ts:15-26), restricted to the fields the service
reads; the optional `isError` flag is a `Bool` (absent ≡ false), the
optional `attachments` array stays an `Option` so that an absent array and
a present empty array are distinguished as in JS. -/
structure Message where
  role : Role
  content : String
  isError : Bool
  attachments : Option (List Attachment)

/-- A Gemini content part: either text or inline data
(src/services/geminiService.ts:32-45). -/
inductive Part
  | text (s : String)
  | inlineData (mimeType data : String)
deriving DecidableEq

/-- A Gemini history entry (src/services/geminiService.ts:47-50). -/
structure Content where
  role : Role
  parts : List Part
deriving DecidableEq

-- Model identifiers (src/services/geminiService.ts:13-22).

def CHAT_MODEL : String := "gemini-3-pro-preview"

def THINKING_MODEL : String := "gemini-3-pro-preview"

def MAPS_MODEL : String := "gemini-2.5-flash"

def FAST_MODEL : String := "gemini-2.5-flash-lite"

def AUDIO_MODEL : String := "gemini-2.5-flash"

/-- `s.startsWith(pat)`: prefix test on the character sequences. -/
def startsWithStr (s pat : String) : Bool :=
  pat.data.isPrefixOf s.data

/-- Model selection inside `streamResponse`
(src/services/geminiService.ts:69-93): an if/else-if chain on the mode,
whose final branch (reached only when the mode is none of `thinking`,
`fast`, `maps`) switches to the audio model when some attachment has an
`audio/` MIME type. -/
def selectStreamModel (mode : AppMode) (attachments : List Attachment) : String :=
  if mode = AppMode.thinking then THINKING_MODEL
  else if mode = AppMode.fast then FAST_MODEL
  else if mode = AppMode.maps then MAPS_MODEL
  else if attachments.length > 0 then
    if attachments.any fun a => startsWithStr a.mimeType "audio/" then AUDIO_MODEL
    else CHAT_MODEL
  else CHAT_MODEL

/-- `mapMessagesToHistory` (src/services/geminiService.ts:27-52): drop
errored messages, drop messages with falsy content and no non-empty
attachment array, then build one Content per remaining message — a text
part when the content is non-empty followed by one inlineData part per
attachment. -/
def mapMessagesToHistory (messages : List Message) : List Content :=
  ((messages.filter fun msg => !msg.isError).filter fun msg =>
      !(msg.content == "")
        || (match msg.attachments with
            | some atts => decide (atts.length > 0)
            | none => false)).map
    fun msg =>
      { role := msg.role
        parts :=
          (if msg.content == "" then [] else [Part.text msg.content])
            ++ (match msg.attachments with
                | some atts => atts.map fun att => Part.inlineData att.mimeType att.data
                | none => []) }

/-- C3 (counterexample): a `thinking`-mode request carrying an audio
attachment does NOT get the audio model — the audio override sits in the
final `else if` branch, which `thinking` (like `fast` and `maps`) never
reaches. -/
theorem selectStreamModel_audio_counterexample :
    startsWithStr (Attachment.mk "audio/wav" "" none).mimeType "audio/" = true
      ∧ selectStreamModel AppMode.thinking [Attachment.mk "audio/wav" "" none]
          ≠ AUDIO_MODEL
      ∧ selectStreamModel AppMode.thinking [Attachment.mk "audio/wav" "" none]
          = THINKING_MODEL := by
  refine ⟨by decide, ?_, rfl⟩
  decide

/-- C3 (amended): the audio-attachment override applies only in the default
(`chat`) branch — a chat-mode request with an audio attachment selects the
audio model, while `thinking`, `fast` and `maps` keep their mode's model
regardless of attachments. -/
theorem selectStreamModel_amended :
    (∀ attachments : List Attachment,
      (attachments.any fun a => startsWithStr a.mimeType "audio/") = true →
        selectStreamModel AppMode.chat attachments = AUDIO_MODEL)
    ∧ (∀ attachments : List Attachment,
        selectStreamModel AppMode.thinking attachments = THINKING_MODEL
          ∧ selectStreamModel AppMode.fast attachments = FAST_MODEL
          ∧ selectStreamModel AppMode.maps attachments = MAPS_MODEL) := by
  constructor
  · intro attachments h
    cases attachments with
    | nil => simp at h
    | cons a l => simp [selectStreamModel, h]
  · intro attachments
    refine ⟨?_, ?_, ?_⟩ <;> simp [selectStreamModel]

/-- Witness for the amended C3 theorem: in chat mode one audio attachment
selects the audio model. -/
theorem selectStreamModel_amended_witness :
    selectStreamModel AppMode.chat [Attachment.mk "audio/mp3" "" none]
      = AUDIO_MODEL :=
  selectStreamModel_amended.1 [Attachment.mk "audio/mp3" "" none] (by decide)

lemma attachments_pred_comm (m : Message) :
    ((!(m.content == "")
        || (match m.attachments with
            | some atts => decide (atts.length > 0)
            | none => false)) && !m.isError)
      = (!m.isError
          && (!(m.content == "") || decide ((m.attachments.getD []).length > 0))) := by
  cases h : m.attachments <;> simp [h, Bool.and_comm]

lemma message_parts_getD (m : Message) :
    ((if m.content == "" then [] else [Part.text m.content])
        ++ (match m.attachments with
            | some atts => atts.map fun att => Part.inlineData att.mimeType att.data
            | none => []))
      = ((if m.content == "" then [] else [Part.text m.content])
          ++ (m.attachments.getD []).map
              fun att => Part.inlineData att.mimeType att.data) := by
  cases h : m.attachments <;> simp [h]

/-- C9: the history actually transmitted is the input list with errored
messages and content-free, attachment-free messages removed, in order, each
survivor mapped to a Content with the same role, its content as the text
part, and its attachments as inlineData parts in order. -/
theorem mapMessagesToHistory_spec (messages : List Message) :
    mapMessagesToHistory messages =
      (messages.filter fun m =>
          !m.isError
            && (!(m.content == "") || decide ((m.attachments.getD []).length > 0))).map
        fun m =>
          { role := m.role
            parts :=
              (if m.content == "" then [] else [Part.text m.content])
                ++ (m.attachments.getD []).map
                    fun att => Part.inlineData att.mimeType att.data } := by
  unfold mapMessagesToHistory
  rw [List.filter_filter]
  rw [List.filter_congr fun m _ => attachments_pred_comm m]
  exact List.map_congr_left fun m _ => by
    rw [Content.mk.injEq]
    exact ⟨rfl, message_parts_getD m⟩

/-- Substring search over character lists (JS `String.prototype.includes`). -/
def hasSubstring (pat : List Char) : List Char → Bool
  | [] => pat.isEmpty
  | c :: rest => pat.isPrefixOf (c :: rest) || hasSubstring pat rest

/-- `s.includes(pat)` on strings. -/
def includesStr (s pat : String) : Bool :=
  hasSubstring pat.data s.data

/-- `s.toLowerCase()`, character by character. -/
def toLowerStr (s : String) : String :=
  ⟨s.data.map Char.toLower⟩

/-- `mapError` (src/services/geminiService.ts:406-411): lower-case the raw
error's message (empty when absent), classify by substring — "429" or
"exhausted" to the rate-limit message, "safety" to the policy message —
and otherwise keep the original message, falling back to a fixed text when
the message is absent or empty (JS `error.message || ...`). -/
def mapError (message : Option String) : String :=
  let msg := toLowerStr (message.getD "")
  if includesStr msg "429" || includesStr msg "exhausted" then
    "Rate limit exceeded. Try again later."
  else if includesStr msg "safety" then
    "Content blocked by safety settings."
  else
    match message with
    | some m => if m == "" then "An unexpected error occurred." else m
    | none => "An unexpected error occurred."

/-- C8: classification order of the error normalizer — quota/rate
indications win, then safety indications, and everything else is generic,
preserving a non-empty original message and falling back to a fixed text
otherwise. -/
theorem mapError_classification (message : Option String) :
    ((includesStr (toLowerStr (message.getD "")) "429"
        || includesStr (toLowerStr (message.getD "")) "exhausted") = true →
      mapError message = "Rate limit exceeded. Try again later.")
    ∧ ((includesStr (toLowerStr (message.getD "")) "429"
          || includesStr (toLowerStr (message.getD "")) "exhausted") = false →
        includesStr (toLowerStr (message.getD "")) "safety" = true →
          mapError message = "Content blocked by safety settings.")
    ∧ ((includesStr (toLowerStr (message.getD "")) "429"
          || includesStr (toLowerStr (message.getD "")) "exhausted") = false →
        includesStr (toLowerStr (message.getD "")) "safety" = false →
          (∀ m, message = some m → m ≠ "" → mapError message = m)
            ∧ ((message = none ∨ message = some "") →
                mapError message = "An unexpected error occurred.")) := by
  refine ⟨fun h => ?_, fun h1 h2 => ?_, fun h1 h2 => ⟨fun m hm hne => ?_, fun hm => ?_⟩⟩
  · simp [mapError, h]
  · simp [mapError, h1, h2]
  · subst hm
    simp only [mapError, h1, h2, Bool.false_eq_true, if_false]
    simp [hne]
  · rcases hm with hm | hm <;> subst hm <;> decide

/-- Witness for C8 on concrete raw errors from each class. -/
theorem mapError_classification_witness :
    mapError (some "Error 429: quota hit") = "Rate limit exceeded. Try again later."
      ∧ mapError (some "SAFETY block") = "Content blocked by safety settings."
      ∧ mapError (some "boom") = "boom"
      ∧ mapError none = "An unexpected error occurred." :=
  ⟨(mapError_classification (some "Error 429: quota hit")).1 (by decide),
    (mapError_classification (some "SAFETY block")).2.1 (by decide) (by decide),
    ((mapError_classification (some "boom")).2.2 (by decide) (by decide)).1
      "boom" rfl (by decide),
    ((mapError_classification none).2.2 (by decide) (by decide)).2 (Or.inl rfl)⟩

/-- The chunk loop of `streamResponse` (src/services/geminiService.ts:116-125):
walk the stream's chunks (each an optional text, `chunk.text`), checking the
cancellation signal before each one — `sig k` is the signal's aborted state
at the check made after `k` chunks have been consumed.  Returns the
accumulated text, the list of `onChunk` invocations, and whether the loop
broke out early on cancellation. -/
def consumeChunks (sig : Nat → Bool) : List (Option String) → Nat → String × List String × Bool
  | [], _ => ("", [], false)
  | c :: cs, k =>
    if sig k then ("", [], true)
    else
      let t := c.getD ""
      let r := consumeChunks sig cs (k + 1)
      if t == "" then r else (t ++ r.1, t :: r.2.1, r.2.2)

/-- `streamResponse`'s consumption and catch logic
(src/services/geminiService.ts:112-132): the stream yields `chunks` and then
either ends normally (`terminalErr = none`) or raises a raw error with the
given optional message.  A loop broken by cancellation returns the
accumulated text; an error caught while the signal is aborted returns "";
any other error is normalized by `mapError` and re-raised. -/
def streamResponse (chunks : List (Option String)) (terminalErr : Option (Option String))
    (sig : Nat → Bool) : Except String String × List String :=
  let r := consumeChunks sig chunks 0
  if r.2.2 then (Except.ok r.1, r.2.1)
  else
    match terminalErr with
    | none => (Except.ok r.1, r.2.1)
    | some e =>
      if sig chunks.length then (Except.ok "", r.2.1)
      else (Except.error (mapError e), r.2.1)

lemma join_cons (c : String) (l : List String) :
    String.join (c :: l) = c ++ String.join l := by
  apply String.ext
  simp [String.data_join]

lemma consumeChunks_signal_cutoff (sig : Nat → Bool) (N : Nat)
    (hsig : ∀ j, sig j = true ↔ N ≤ j) :
    ∀ (chunks : List String) (k : Nat), (∀ c ∈ chunks, c ≠ "") → k ≤ N →
      consumeChunks sig (chunks.map some) k =
        (String.join (chunks.take (N - k)), chunks.take (N - k),
          decide (N - k < chunks.length)) := by
  intro chunks
  induction chunks with
  | nil => intro k _ _; simp [consumeChunks, String.join]
  | cons c cs ih =>
    intro k hc hk
    by_cases habort : sig k
    · have hNk : N = k := le_antisymm ((hsig k).mp habort) hk
      simp [consumeChunks, habort, hNk, String.join]
    · have hlt : k < N := lt_of_le_of_ne hk fun h => habort ((hsig k).mpr (le_of_eq h.symm))
      have hcne : (c == "") = false := by
        have := hc c (List.mem_cons_self c cs)
        simpa using this
      have hrec := ih (k + 1) (fun x hx => hc x (List.mem_cons_of_mem c hx)) hlt
      have hsub : N - k = (N - (k + 1)) + 1 := by omega
      have htake : (c :: cs).take (N - k) = c :: cs.take (N - (k + 1)) := by
        rw [hsub, List.take_succ_cons]
      have hlen : decide (N - k < (c :: cs).length)
          = decide (N - (k + 1) < cs.length) :=
        decide_eq_decide.mpr (by simp only [List.length_cons]; omega)
      simp only [List.map_cons, consumeChunks, habort, Bool.false_eq_true, if_false,
        Option.getD_some, hcne, hrec, htake, hlen, join_cons]

/-- C2: a cancellation signal that becomes aborted once N chunks have been
delivered makes the consumer return exactly the concatenation of those N
chunk texts, invoke `onChunk` on exactly those N chunks and no further one,
and raise no error. -/
theorem streamResponse_cancel (chunks : List String) (N : Nat) (sig : Nat → Bool)
    (hc : ∀ c ∈ chunks, c ≠ "")
    (hsig : ∀ j, sig j = true ↔ N ≤ j)
    (_hN : N ≤ chunks.length) :
    streamResponse (chunks.map some) none sig
      = (Except.ok (String.join (chunks.take N)), chunks.take N) := by
  have h := consumeChunks_signal_cutoff sig N hsig chunks 0 hc (Nat.zero_le N)
  simp only [Nat.sub_zero] at h
  rw [streamResponse, h]
  by_cases hb : N < chunks.length <;> simp [hb]

/-- Witness for C2: three non-empty chunks, signal aborted after two. -/
theorem streamResponse_cancel_witness :
    streamResponse (["Hel", "lo ", "world"].map some) none (fun k => decide (2 ≤ k))
      = (Except.ok (String.join (["Hel", "lo ", "world"].take 2)),
          ["Hel", "lo ", "world"].take 2) :=
  streamResponse_cancel ["Hel", "lo ", "world"] 2 (fun k => decide (2 ≤ k))
    (by decide) (fun j => by simp) (by decide)

lemma consumeChunks_no_abort (sig : Nat → Bool) :
    ∀ (chunks : List (Option String)) (k : Nat),
      (∀ j, j < chunks.length → sig (k + j) = false) →
        (consumeChunks sig chunks k).2.2 = false := by
  intro chunks
  induction chunks with
  | nil => intro k _; simp [consumeChunks]
  | cons c cs ih =>
    intro k h
    have h0 : sig k = false := by simpa using h 0 (Nat.succ_pos cs.length)
    have hrec := ih (k + 1) fun j hj => by
      have hx := h (j + 1) (by simpa using Nat.succ_lt_succ hj)
      have harith : k + 1 + j = k + (j + 1) := by omega
      rw [harith]
      exact hx
    simp only [consumeChunks, h0, Bool.false_eq_true, if_false]
    split <;> simp [hrec]

/-- C10: when the stream call raises while the signal is aborted the
consumer returns the empty string and no error; the error is normalized and
re-raised only when the signal is not aborted. -/
theorem streamResponse_error_vs_abort (chunks : List (Option String))
    (rawMsg : Option String) (sig : Nat → Bool)
    (hrun : ∀ j, j < chunks.length → sig j = false) :
    (sig chunks.length = true →
      (streamResponse chunks (some rawMsg) sig).1 = Except.ok "")
    ∧ (sig chunks.length = false →
        (streamResponse chunks (some rawMsg) sig).1
          = Except.error (mapError rawMsg)) := by
  have hnb : (consumeChunks sig chunks 0).2.2 = false :=
    consumeChunks_no_abort sig chunks 0 fun j hj => by
      rw [Nat.zero_add]
      exact hrun j hj
  constructor
  · intro habort
    simp [streamResponse, hnb, habort]
  · intro hlive
    simp [streamResponse, hnb, hlive]

/-- Witness for C10: one chunk delivered, stream raises, signal aborted at
the catch — empty-string result, no error. -/
theorem streamResponse_error_vs_abort_witness :
    (streamResponse [some "partial"] (some (some "boom"))
        (fun k => decide (1 ≤ k))).1 = Except.ok "" :=
  (streamResponse_error_vs_abort [some "partial"] (some "boom")
      (fun k => decide (1 ≤ k)) (by decide)).1 (by decide)

/-- `operation.response?.generatedVideos?.[0]?.video` target
(src/services/geminiService.ts:390). -/
structure VideoRef where
  uri : Option String
deriving DecidableEq

/-- One entry of `response.generatedVideos`. -/
structure GeneratedVideo where
  video : Option VideoRef
deriving DecidableEq

/-- The `response` object of a video operation. -/
structure VideoResponse where
  generatedVideos : Option (List GeneratedVideo)
deriving DecidableEq

/-- A video generation operation as polled
(src/services/geminiService.ts:385-390). -/
structure VideoOp where
  done : Bool
  response : Option VideoResponse
deriving DecidableEq

/-- `operation.response?.generatedVideos?.[0]?.video?.uri`
(src/services/geminiService.ts:390). -/
def firstVideoUri (op : VideoOp) : Option String :=
  match op.response with
  | none => none
  | some r =>
    match r.generatedVideos with
    | none => none
    | some vids =>
      match vids.head? with
      | none => none
      | some gv =>
        match gv.video with
        | none => none
        | some v => v.uri

/-- The `while (!operation.done)` loop (src/services/geminiService.ts:386-389)
over a given sequence of poll responses: returns the final operation, the
number of `getVideosOperation` calls made, and the list of waits (in ms)
performed before each call; `none` when the response sequence runs out
before `done`. -/
def pollOps : VideoOp → List VideoOp → Option (VideoOp × Nat × List Nat)
  | op, responses =>
    if op.done then some (op, 0, [])
    else
      match responses with
      | [] => none
      | r :: rs =>
        match pollOps r rs with
        | none => none
        | some (f, n, ds) => some (f, n + 1, 5000 :: ds)

/-- `generateVideo`'s poll-and-extract tail
(src/services/geminiService.ts:385-393): poll until done, then return
`${videoUri}&key=${API_KEY}` from the first generated video.  The source's
`if (!videoUri)` is a JS falsy check, so both an absent and an
empty-string URI raise the "Video generation failed." error, which the
catch block then normalizes. -/
def generateVideoResult (apiKey : String) (initial : VideoOp)
    (responses : List VideoOp) : Option (Except String String × Nat × List Nat) :=
  match pollOps initial responses with
  | none => none
  | some (f, n, ds) =>
    match firstVideoUri f with
    | some uri =>
      if uri == "" then
        some (Except.error (mapError (some "Video generation failed.")), n, ds)
      else some (Except.ok (uri ++ "&key=" ++ apiKey), n, ds)
    | none => some (Except.error (mapError (some "Video generation failed.")), n, ds)

lemma pollOps_front (doneOp : VideoOp) (hdone : doneOp.done = true)
    (rest : List VideoOp) :
    ∀ (front : List VideoOp) (initial : VideoOp), initial.done = false →
      (∀ op ∈ front, op.done = false) →
      pollOps initial (front ++ doneOp :: rest) =
        some (doneOp, front.length + 1, List.replicate (front.length + 1) 5000) := by
  intro front
  induction front with
  | nil =>
    intro initial hinit _
    rw [pollOps.eq_def]
    simp only [hinit, Bool.false_eq_true, if_false, List.nil_append]
    rw [pollOps.eq_def]
    simp [hdone]
  | cons f fs ih =>
    intro initial hinit hfront
    rw [pollOps.eq_def]
    simp only [hinit, Bool.false_eq_true, if_false, List.cons_append]
    rw [ih f (hfront f (List.mem_cons_self f fs))
      fun op hop => hfront op (List.mem_cons_of_mem f hop)]
    simp [List.replicate_succ]

/-- C5: when the first K poll responses have `done = false` and the (K+1)-th
has `done = true`, the poller issues exactly K+1 re-query calls, each after
a fixed 5000 ms wait, and returns the first generated media reference of
that final response — or the terminal "Video generation failed." error when
that reference is absent or empty (the source's falsy check). -/
theorem generateVideo_poller (apiKey : String) (initial : VideoOp)
    (front : List VideoOp) (doneOp : VideoOp) (rest : List VideoOp)
    (hinit : initial.done = false)
    (hfront : ∀ op ∈ front, op.done = false)
    (hdone : doneOp.done = true) :
    generateVideoResult apiKey initial (front ++ doneOp :: rest) =
      some (match firstVideoUri doneOp with
        | some uri =>
          if uri == "" then Except.error (mapError (some "Video generation failed."))
          else Except.ok (uri ++ "&key=" ++ apiKey)
        | none => Except.error (mapError (some "Video generation failed.")),
        front.length + 1, List.replicate (front.length + 1) 5000) := by
  rw [generateVideoResult, pollOps_front doneOp hdone rest front initial hinit hfront]
  cases h : firstVideoUri doneOp with
  | none => simp [h]
  | some uri =>
    by_cases hu : uri == "" <;> simp [h, hu]

/-- Witness for C5: one not-done poll response then a done response carrying
a URI — two re-query calls, two 5-second waits, and the keyed URI result. -/
theorem generateVideo_poller_witness :
    generateVideoResult "KEY" (VideoOp.mk false none)
        [VideoOp.mk false none,
          VideoOp.mk true (some (VideoResponse.mk
            (some [GeneratedVideo.mk (some (VideoRef.mk (some "https://v")))])))]
      = some (Except.ok "https://v&key=KEY", 2, [5000, 5000]) := by
  have h := generateVideo_poller "KEY" (VideoOp.mk false none)
    [VideoOp.mk false none]
    (VideoOp.mk true (some (VideoResponse.mk
      (some [GeneratedVideo.mk (some (VideoRef.mk (some "https://v")))]))))
    [] rfl (by simp) rfl
  exact h

/-- The statuses reported through `onStatusChange`
(src/services/geminiService.ts:221). -/
inductive LiveStatus
  | connected
  | disconnected
  | error
deriving DecidableEq

/-- Lifecycle events a `LiveClient` session can experience: the transport
callbacks (src/services/geminiService.ts:237-248), a failure of `connect`
itself (ts:258-261), and an explicit `disconnect()` call (ts:330-337). -/
inductive LiveEvent
  | openEv
  | messageEv
  | closeEv
  | errorEv
  | connectFail
  | disconnectCall
deriving DecidableEq

/-- The `onStatusChange` invocations each event performs in the code:
`onopen` reports connected, `onclose` reports disconnected, `onerror` and a
`connect` exception report error, and `disconnect()` itself reports
disconnected after releasing resources. -/
def eventNotifications : LiveEvent → List LiveStatus
  | .openEv => [.connected]
  | .messageEv => []
  | .closeEv => [.disconnected]
  | .errorEv => [.error]
  | .connectFail => [.error]
  | .disconnectCall => [.disconnected]

/-- All status notifications over one session lifecycle, in order. -/
def sessionNotifications (events : List LiveEvent) : List LiveStatus :=
  (events.map eventNotifications).flatten

/-- `disconnected` and `error` are the terminal statuses. -/
def isTerminal : LiveStatus → Bool
  | .connected => false
  | .disconnected => true
  | .error => true

/-- Number of terminal-status notifications in a lifecycle. -/
def terminalCount (events : List LiveEvent) : Nat :=
  (sessionNotifications events).countP isTerminal

/-- C6 (counterexample): in the lifecycle where `connect` opens, the caller
calls `disconnect()`, and the closed transport then fires its `onclose`
callback, the caller receives `disconnected` twice — two terminal
notifications, not exactly one. -/
theorem live_terminal_counterexample :
    sessionNotifications
        [LiveEvent.openEv, LiveEvent.disconnectCall, LiveEvent.closeEv]
      = [LiveStatus.connected, LiveStatus.disconnected, LiveStatus.disconnected]
    ∧ terminalCount [LiveEvent.openEv, LiveEvent.disconnectCall, LiveEvent.closeEv]
        = 2 := by
  constructor <;> rfl

/-- C6 (amended): the callback reports one terminal status per terminal
event — a lifecycle ending in a single transport close, transport error,
connect failure, or explicit disconnect is notified exactly once, but when
an explicit disconnect also causes the transport's close callback to fire
the caller is notified twice. -/
theorem live_terminal_amended :
    (∀ events : List LiveEvent,
      terminalCount events =
        (events.countP fun e => (eventNotifications e).any isTerminal))
    ∧ terminalCount [LiveEvent.openEv, LiveEvent.closeEv] = 1
    ∧ terminalCount [LiveEvent.openEv, LiveEvent.errorEv] = 1
    ∧ terminalCount [LiveEvent.connectFail] = 1
    ∧ terminalCount [LiveEvent.openEv, LiveEvent.disconnectCall] = 1
    ∧ terminalCount [LiveEvent.openEv, LiveEvent.disconnectCall, LiveEvent.closeEv]
        = 2 := by
  refine ⟨?_, rfl, rfl, rfl, rfl, rfl⟩
  intro events
  induction events with
  | nil => rfl
  | cons e es ih =>
    rw [terminalCount, sessionNotifications, List.map_cons, List.flatten_cons,
      List.countP_append, List.countP_cons]
    rw [terminalCount, sessionNotifications] at ih
    rw [ih]
    cases e <;> simp [eventNotifications, isTerminal] <;> omega

/-- The playback scheduler of `playAudio`
(src/services/geminiService.ts:322-327), folded over a sequence of inbound
buffers: each arrival carries the playback clock's `currentTime` and the
buffer's `duration`; the cursor (`nextStartTime`) is pulled up to the clock
if it fell behind, the buffer starts at the cursor, and the cursor advances
by the duration.  Returns the list of (startTime, duration) pairs. -/
def playAudioSchedule : ℚ → List (ℚ × ℚ) → List (ℚ × ℚ)
  | _, [] => []
  | cursor, (currentTime, dur) :: rest =>
    let start := if cursor < currentTime then currentTime else cursor
    (start, dur) :: playAudioSchedule (start + dur) rest

/-- No two consecutive scheduled clips overlap: each starts no earlier than
the previous one's scheduled end. -/
def nonOverlapping : List (ℚ × ℚ) → Prop
  | [] => True
  | [_] => True
  | (s1, d1) :: (s2, d2) :: rest => s1 + d1 ≤ s2 ∧ nonOverlapping ((s2, d2) :: rest)

lemma ite_lt_max (a b : ℚ) : (if a < b then b else a) = max a b := by
  rcases le_or_lt b a with h | h
  · rw [if_neg (not_lt.mpr h), max_eq_left h]
  · rw [if_pos h, max_eq_right (le_of_lt h)]

lemma playAudioSchedule_cons (cursor currentTime dur : ℚ) (rest : List (ℚ × ℚ)) :
    playAudioSchedule cursor ((currentTime, dur) :: rest)
      = (max cursor currentTime, dur)
          :: playAudioSchedule (max cursor currentTime + dur) rest := by
  rw [playAudioSchedule, ite_lt_max]

lemma playAudioSchedule_nonOverlapping (cursor : ℚ) (events : List (ℚ × ℚ))
    (h : ∀ e ∈ events, 0 ≤ e.2) :
    nonOverlapping (playAudioSchedule cursor events) := by
  induction events generalizing cursor with
  | nil => trivial
  | cons e rest ih =>
    obtain ⟨t1, d1⟩ := e
    rw [playAudioSchedule_cons]
    cases rest with
    | nil => trivial
    | cons e2 rest2 =>
      obtain ⟨t2, d2⟩ := e2
      rw [playAudioSchedule_cons]
      refine ⟨le_max_left _ _, ?_⟩
      rw [← playAudioSchedule_cons]
      exact ih (max cursor t1 + d1) fun x hx => h x (List.mem_cons_of_mem _ hx)

/-- C7: each inbound buffer is scheduled at `max cursor clock` and the
cursor then advances by exactly that buffer's duration; consequently no two
scheduled buffers overlap, and a second buffer arriving before the first's
scheduled end starts exactly at the first's start plus the first's duration
(zero gap). -/
theorem playAudio_scheduling :
    (∀ (cursor currentTime dur : ℚ) (rest : List (ℚ × ℚ)),
      playAudioSchedule cursor ((currentTime, dur) :: rest)
        = (max cursor currentTime, dur)
            :: playAudioSchedule (max cursor currentTime + dur) rest)
    ∧ (∀ (cursor : ℚ) (events : List (ℚ × ℚ)), (∀ e ∈ events, 0 ≤ e.2) →
        nonOverlapping (playAudioSchedule cursor events))
    ∧ (∀ cursor t1 d1 t2 d2 : ℚ,
        t2 < max cursor t1 + d1 →
          playAudioSchedule cursor [(t1, d1), (t2, d2)]
            = [(max cursor t1, d1), (max cursor t1 + d1, d2)]) := by
  refine ⟨playAudioSchedule_cons, ?_, ?_⟩
  · intro cursor events h
    exact playAudioSchedule_nonOverlapping cursor events h
  · intro cursor t1 d1 t2 d2 hearly
    rw [playAudioSchedule_cons, playAudioSchedule_cons,
      max_eq_left (le_of_lt hearly)]
    rfl

/-- Witness for C7: cursor 0, first buffer at clock 0 with duration 1, a
second buffer arriving at clock 1/2 — scheduled back-to-back at 0 and 1. -/
theorem playAudio_scheduling_witness :
    playAudioSchedule 0 [(0, 1), (1 / 2, 1)]
      = [(max 0 0, 1), (max 0 0 + 1, 1)] :=
  playAudio_scheduling.2.2 0 0 1 (1 / 2) 1 (by norm_num)

end Aira
